import Mathlib

/-!
Shallow embedding of the message-processing core of the
video-steganography AES/MD5 repository.

Source files modelled here:
- src/aes_utils.py   : encrypt_AES_256 / decrypt_AES_256 (AES-256 in GCM
  mode under a fixed key and 12-byte IV; the tag returned by
  encrypt_and_digest is discarded, and decrypt calls cipher.decrypt with
  no tag verification).  The GCM keystream for a 96-bit IV encrypts
  counter blocks IV ++ be32(i+2); the external AES block cipher and the
  base64 transport codec (Python base64 module) are embedded concretely
  below and validated against the FIPS-197 AES-256 test vector and
  known digests.
- src/md5_utils.py   : md5_checksum / verify_md5_checksum (hashlib.md5
  embedded concretely, validated against known digests).
- src/encode.py      : split_string, and the checksum framing
  TEXT_TO_ENCODE = md5_checksum(text) + text from main().
- src/decode.py      : parse_frames_spec, verify_md5_from_payload, the
  flexible decrypt wrapper, and the literal-list / frame-spec parsing of
  a decrypted still-image payload.

Bytes are `Nat` values below 256; Python `str` values are `List Char`.
Fallible Python code (raising exceptions) is modelled with `Option`.
-/

namespace VideoStego

/-- Ceiling division on naturals, `math.ceil (a / b)` for `b > 0`. -/
def ceilDiv (a b : Nat) : Nat := (a + b - 1) / b

theorem ceilDiv_le_mul (a b : Nat) (hb : 1 ≤ b) : a ≤ b * ceilDiv a b := by
  unfold ceilDiv
  have h := Nat.div_add_mod (a + b - 1) b
  have hm := Nat.mod_lt (a + b - 1) (by omega : 0 < b)
  omega

theorem ceilDiv_pos (a b : Nat) (ha : 1 ≤ a) (hb : 1 ≤ b) : 1 ≤ ceilDiv a b := by
  unfold ceilDiv
  rw [Nat.le_div_iff_mul_le (by omega : 0 < b)]
  omega

theorem ceilDiv_le_of_le_mul (a b n : Nat) (hb : 1 ≤ b) (h : a ≤ n * b) :
    ceilDiv a b ≤ n := by
  unfold ceilDiv
  rw [← Nat.lt_succ_iff, Nat.div_lt_iff_lt_mul (by omega : 0 < b), Nat.succ_mul]
  omega

/-! ### Base64 transport codec (Python `base64.b64encode` / `b64decode`)

`b64encode` maps byte triples to four alphabet characters, padding the
final group with `=`.  `b64decode` (non-strict mode, as called by the
repository) ASCII-encodes the string, discards characters outside the
alphabet-plus-padding set, and then decodes complete four-character
groups, failing (`binascii.Error`) when the remaining characters do not
form complete groups with well-placed padding.  Exotic inputs such as
mid-stream padding are rejected here; no code path of the repository
reaches them. -/

def b64Alphabet : List Char :=
  "ABCDEFGHIJKLMNOPQRSTUVWXYZabcdefghijklmnopqrstuvwxyz0123456789+/".toList

/-- The character used for value `v` (0 ≤ v < 64). -/
def encChar (v : Nat) : Char := b64Alphabet.getD v '?'

/-- The 6-bit value of an alphabet character, `none` outside the alphabet. -/
def decChar (c : Char) : Option Nat :=
  let i := b64Alphabet.indexOf c
  if i < 64 then some i else none

/-- Characters kept by the lenient decoder: alphabet plus padding. -/
def isKeepChar (c : Char) : Bool := (decChar c).isSome || c = '='

def b64encode : List Nat → List Char
  | [] => []
  | [b1] =>
      [encChar (b1 / 4), encChar (b1 % 4 * 16), '=', '=']
  | [b1, b2] =>
      [encChar (b1 / 4), encChar (b1 % 4 * 16 + b2 / 16), encChar (b2 % 16 * 4), '=']
  | b1 :: b2 :: b3 :: rest =>
      encChar (b1 / 4) :: encChar (b1 % 4 * 16 + b2 / 16) ::
      encChar (b2 % 16 * 4 + b3 / 64) :: encChar (b3 % 64) :: b64encode rest

def b64decodeCore : List Char → Option (List Nat)
  | [] => some []
  | c1 :: c2 :: c3 :: c4 :: rest =>
      match decChar c1, decChar c2 with
      | some v1, some v2 =>
          if c3 = '=' then
            if c4 = '=' && rest.isEmpty then some [v1 * 4 + v2 / 16] else none
          else
            match decChar c3 with
            | some v3 =>
                if c4 = '=' then
                  if rest.isEmpty then
                    some [v1 * 4 + v2 / 16, v2 % 16 * 16 + v3 / 4]
                  else none
                else
                  match decChar c4 with
                  | some v4 =>
                      (b64decodeCore rest).map
                        (fun bs => (v1 * 4 + v2 / 16) :: (v2 % 16 * 16 + v3 / 4) ::
                                   (v3 % 4 * 64 + v4) :: bs)
                  | none => none
            | none => none
      | _, _ => none
  | _ => none

/-- Python `base64.b64decode` on a `str`: the ASCII encoding step fails on
non-ASCII characters, then non-alphabet characters are discarded and the
remaining groups are decoded. -/
def b64decode (s : List Char) : Option (List Nat) :=
  if s.all (fun c => c.toNat < 128) then b64decodeCore (s.filter isKeepChar)
  else none

theorem decChar_encChar (v : Nat) (h : v < 64) : decChar (encChar v) = some v := by
  revert v h
  decide

theorem encChar_keep (v : Nat) (h : v < 64) :
    isKeepChar (encChar v) = true ∧ encChar v ≠ '=' ∧ (encChar v).toNat < 128 := by
  revert v h
  decide

theorem keep_pad : isKeepChar '=' = true := by decide

/-- Every character emitted by `b64encode` survives ASCII encoding and the
lenient filter, and data characters are never padding. -/
theorem b64encode_chars (bs : List Nat) (hb : ∀ b ∈ bs, b < 256) :
    ((b64encode bs).all (fun c => c.toNat < 128) = true) ∧
    (b64encode bs).filter isKeepChar = b64encode bs := by
  induction bs using b64encode.induct with
  | case1 => simp [b64encode]
  | case2 b1 =>
      have h1 : b1 < 256 := hb b1 (by simp)
      have e1 := encChar_keep (b1 / 4) (by omega)
      have e2 := encChar_keep (b1 % 4 * 16) (by omega)
      refine ⟨?_, ?_⟩
      · simp [b64encode, e1.2.2, e2.2.2]
      · simp [b64encode, List.filter_cons, e1.1, e2.1, keep_pad]
  | case3 b1 b2 =>
      have h1 : b1 < 256 := hb b1 (by simp)
      have h2 : b2 < 256 := hb b2 (by simp)
      have e1 := encChar_keep (b1 / 4) (by omega)
      have e2 := encChar_keep (b1 % 4 * 16 + b2 / 16) (by omega)
      have e3 := encChar_keep (b2 % 16 * 4) (by omega)
      refine ⟨?_, ?_⟩
      · simp [b64encode, e1.2.2, e2.2.2, e3.2.2]
      · simp [b64encode, List.filter_cons, e1.1, e2.1, e3.1, keep_pad]
  | case4 b1 b2 b3 rest ih =>
      have h1 : b1 < 256 := hb b1 (by simp)
      have h2 : b2 < 256 := hb b2 (by simp)
      have h3 : b3 < 256 := hb b3 (by simp)
      have e1 := encChar_keep (b1 / 4) (by omega)
      have e2 := encChar_keep (b1 % 4 * 16 + b2 / 16) (by omega)
      have e3 := encChar_keep (b2 % 16 * 4 + b3 / 64) (by omega)
      have e4 := encChar_keep (b3 % 64) (by omega)
      have ih := ih (fun b hbm => hb b
        (List.mem_cons_of_mem _ (List.mem_cons_of_mem _ (List.mem_cons_of_mem _ hbm))))
      refine ⟨?_, ?_⟩
      · simp only [b64encode, List.all_cons, Bool.and_eq_true, decide_eq_true_eq]
        exact ⟨e1.2.2, e2.2.2, e3.2.2, e4.2.2, ih.1⟩
      · simp [b64encode, List.filter_cons, e1.1, e2.1, e3.1, e4.1, ih.2]

theorem b64decodeCore_encode (bs : List Nat) (hb : ∀ b ∈ bs, b < 256) :
    b64decodeCore (b64encode bs) = some bs := by
  induction bs using b64encode.induct with
  | case1 => simp [b64encode, b64decodeCore]
  | case2 b1 =>
      have h1 : b1 < 256 := hb b1 (by simp)
      have d1 := decChar_encChar (b1 / 4) (by omega)
      have d2 := decChar_encChar (b1 % 4 * 16) (by omega)
      simp [b64encode, b64decodeCore, d1, d2] <;> omega
  | case3 b1 b2 =>
      have h1 : b1 < 256 := hb b1 (by simp)
      have h2 : b2 < 256 := hb b2 (by simp)
      have d1 := decChar_encChar (b1 / 4) (by omega)
      have d2 := decChar_encChar (b1 % 4 * 16 + b2 / 16) (by omega)
      have d3 := decChar_encChar (b2 % 16 * 4) (by omega)
      have e3 := encChar_keep (b2 % 16 * 4) (by omega)
      simp only [b64encode, b64decodeCore, d1, d2]
      rw [if_neg e3.2.1]
      simp [d3] <;> omega
  | case4 b1 b2 b3 rest ih =>
      have h1 : b1 < 256 := hb b1 (by simp)
      have h2 : b2 < 256 := hb b2 (by simp)
      have h3 : b3 < 256 := hb b3 (by simp)
      have d1 := decChar_encChar (b1 / 4) (by omega)
      have d2 := decChar_encChar (b1 % 4 * 16 + b2 / 16) (by omega)
      have d3 := decChar_encChar (b2 % 16 * 4 + b3 / 64) (by omega)
      have d4 := decChar_encChar (b3 % 64) (by omega)
      have e3 := encChar_keep (b2 % 16 * 4 + b3 / 64) (by omega)
      have e4 := encChar_keep (b3 % 64) (by omega)
      have ih := ih (fun b hbm => hb b
        (List.mem_cons_of_mem _ (List.mem_cons_of_mem _ (List.mem_cons_of_mem _ hbm))))
      simp only [b64encode, b64decodeCore, d1, d2]
      rw [if_neg e3.2.1]
      simp only [d3]
      rw [if_neg e4.2.1]
      simp [d4, ih] <;> omega

/-- Round trip of the transport codec on genuine byte sequences. -/
theorem b64decode_encode (bs : List Nat) (hb : ∀ b ∈ bs, b < 256) :
    b64decode (b64encode bs) = some bs := by
  have hc := b64encode_chars bs hb
  unfold b64decode
  rw [if_pos hc.1, hc.2]
  exact b64decodeCore_encode bs hb

/-- The length of a base64 encoding: four characters per three-byte group. -/
theorem b64encode_length (bs : List Nat) :
    (b64encode bs).length = 4 * ceilDiv bs.length 3 := by
  induction bs using b64encode.induct with
  | case1 => simp [b64encode, ceilDiv]
  | case2 b1 => simp [b64encode, ceilDiv]
  | case3 b1 b2 => simp [b64encode, ceilDiv]
  | case4 b1 b2 b3 rest ih =>
      simp only [b64encode, List.length_cons, ih, ceilDiv, List.length]
      omega

/-! ### AES-256 block cipher and the GCM counter keystream

`aes_utils.py` delegates to pycryptodome: `AES.new(key, AES.MODE_GCM, iv)`
with the fixed 32-byte key `"12345678901234567890123456789012"` and the
fixed 12-byte IV `"123456789012"`.  For a 96-bit IV, GCM encrypts with
counter blocks `IV ++ be32(i + 2)` for message block `i`, XORing the AES
output into the plaintext.  The block cipher below is validated against
the FIPS-197 AES-256 test vector. -/

/-- Multiplication by `x` in GF(2^8) modulo the AES polynomial. -/
def xtime (b : Nat) : Nat :=
  if b % 256 < 128 then 2 * b % 256 else 2 * b % 256 ^^^ 0x1B

def gfMulAux : Nat → Nat → Nat → Nat → Nat
  | 0, _, _, acc => acc
  | n + 1, a, b, acc =>
      gfMulAux n (xtime a) (b / 2) (if b % 2 = 1 then acc ^^^ a else acc)

/-- Carry-less multiplication in GF(2^8). -/
def gfMul (a b : Nat) : Nat := gfMulAux 8 a b 0

/-- Inverse in GF(2^8) via `x ^ 254` (and `gfInv 0 = 0`). -/
def gfInv (x : Nat) : Nat :=
  let x2 := gfMul x x
  let x4 := gfMul x2 x2
  let x8 := gfMul x4 x4
  let x16 := gfMul x8 x8
  let x32 := gfMul x16 x16
  let x64 := gfMul x32 x32
  let x128 := gfMul x64 x64
  gfMul x128 (gfMul x64 (gfMul x32 (gfMul x16 (gfMul x8 (gfMul x4 x2)))))

/-- Left rotation of an 8-bit value. -/
def rotl8 (b k : Nat) : Nat := b * 2 ^ k % 256 + b % 256 / 2 ^ (8 - k)

/-- The AES S-box: affine transform of the GF(2^8) inverse. -/
def sboxCalc (x : Nat) : Nat :=
  let b := gfInv x
  b ^^^ rotl8 b 1 ^^^ rotl8 b 2 ^^^ rotl8 b 3 ^^^ rotl8 b 4 ^^^ 0x63

/-- The AES S-box as a literal table (used by the executable cipher). -/
def sboxTable : List Nat :=
  [99, 124, 119, 123, 242, 107, 111, 197, 48, 1, 103, 43, 254, 215, 171, 118,
   202, 130, 201, 125, 250, 89, 71, 240, 173, 212, 162, 175, 156, 164, 114, 192,
   183, 253, 147, 38, 54, 63, 247, 204, 52, 165, 229, 241, 113, 216, 49, 21,
   4, 199, 35, 195, 24, 150, 5, 154, 7, 18, 128, 226, 235, 39, 178, 117,
   9, 131, 44, 26, 27, 110, 90, 160, 82, 59, 214, 179, 41, 227, 47, 132,
   83, 209, 0, 237, 32, 252, 177, 91, 106, 203, 190, 57, 74, 76, 88, 207,
   208, 239, 170, 251, 67, 77, 51, 133, 69, 249, 2, 127, 80, 60, 159, 168,
   81, 163, 64, 143, 146, 157, 56, 245, 188, 182, 218, 33, 16, 255, 243, 210,
   205, 12, 19, 236, 95, 151, 68, 23, 196, 167, 126, 61, 100, 93, 25, 115,
   96, 129, 79, 220, 34, 42, 144, 136, 70, 238, 184, 20, 222, 94, 11, 219,
   224, 50, 58, 10, 73, 6, 36, 92, 194, 211, 172, 98, 145, 149, 228, 121,
   231, 200, 55, 109, 141, 213, 78, 169, 108, 86, 244, 234, 101, 122, 174, 8,
   186, 120, 37, 46, 28, 166, 180, 198, 232, 221, 116, 31, 75, 189, 139, 138,
   112, 62, 181, 102, 72, 3, 246, 14, 97, 53, 87, 185, 134, 193, 29, 158,
   225, 248, 152, 17, 105, 217, 142, 148, 155, 30, 135, 233, 206, 85, 40, 223,
   140, 161, 137, 13, 191, 230, 66, 104, 65, 153, 45, 15, 176, 84, 187, 22]

set_option maxRecDepth 100000 in
set_option maxHeartbeats 1000000 in
/-- The literal S-box table agrees with its algebraic definition. -/
theorem sboxTable_eq_calc : sboxTable = (List.range 256).map sboxCalc := by decide

def sbox (b : Nat) : Nat := sboxTable.getD b 0

def subWord (w : List Nat) : List Nat := w.map sbox

def rotWord (w : List Nat) : List Nat := w.drop 1 ++ w.take 1

def wordXor (a b : List Nat) : List Nat := List.zipWith (· ^^^ ·) a b

/-- Round constants: `rcon 1 = 1`, doubling in GF(2^8). -/
def rconV : Nat → Nat
  | 0 => 0
  | 1 => 1
  | n + 1 => xtime (rconV n)

/-- One step of the AES key expansion, producing word `i = ws.length`. -/
def nextWord (ws : List (List Nat)) : List Nat :=
  let i := ws.length
  let temp := ws.getD (i - 1) []
  let temp :=
    if i % 8 = 0 then wordXor (subWord (rotWord temp)) [rconV (i / 8), 0, 0, 0]
    else if i % 8 = 4 then subWord temp
    else temp
  wordXor (ws.getD (i - 8) []) temp

def expandWords : Nat → List (List Nat) → List (List Nat)
  | 0, ws => ws
  | n + 1, ws => expandWords n (ws ++ [nextWord ws])

def toWords : List Nat → List (List Nat)
  | b0 :: b1 :: b2 :: b3 :: rest => [b0, b1, b2, b3] :: toWords rest
  | _ => []

/-- AES-256 key schedule: 8 key words expanded to 60, grouped into 15
sixteen-byte round keys. -/
def keySchedule (key : List Nat) : List (List Nat) :=
  let ws := expandWords 52 (toWords key)
  (List.range 15).map (fun r => ((ws.drop (4 * r)).take 4).flatten)

def addRoundKey (s rk : List Nat) : List Nat := List.zipWith (· ^^^ ·) s rk

def subBytes (s : List Nat) : List Nat := s.map sbox

/-- ShiftRows on the column-major byte order used by FIPS-197. -/
def shiftRows (s : List Nat) : List Nat :=
  [0, 5, 10, 15, 4, 9, 14, 3, 8, 13, 2, 7, 12, 1, 6, 11].map (fun i => s.getD i 0)

def mixColumn (a : List Nat) : List Nat :=
  let a0 := a.getD 0 0
  let a1 := a.getD 1 0
  let a2 := a.getD 2 0
  let a3 := a.getD 3 0
  [xtime a0 ^^^ (xtime a1 ^^^ a1) ^^^ a2 ^^^ a3,
   a0 ^^^ xtime a1 ^^^ (xtime a2 ^^^ a2) ^^^ a3,
   a0 ^^^ a1 ^^^ xtime a2 ^^^ (xtime a3 ^^^ a3),
   (xtime a0 ^^^ a0) ^^^ a1 ^^^ a2 ^^^ xtime a3]

def mixColumns (s : List Nat) : List Nat :=
  (mixColumn (s.take 4)) ++ (mixColumn ((s.drop 4).take 4)) ++
  (mixColumn ((s.drop 8).take 4)) ++ (mixColumn (s.drop 12))

def aesRound (rk s : List Nat) : List Nat :=
  addRoundKey (mixColumns (shiftRows (subBytes s))) rk

def aesFinalRound (rk s : List Nat) : List Nat :=
  addRoundKey (shiftRows (subBytes s)) rk

/-- AES-256 block encryption (14 rounds) given the 15 round keys. -/
def aesEncBlock (rks : List (List Nat)) (block : List Nat) : List Nat :=
  let s0 := addRoundKey block (rks.getD 0 [])
  let sMid := (List.range 13).foldl (fun s r => aesRound (rks.getD (r + 1) []) s) s0
  aesFinalRound (rks.getD 14 []) sMid

set_option maxRecDepth 100000 in
set_option maxHeartbeats 1000000 in
/-- FIPS-197 appendix C.3 test vector for AES-256. -/
theorem aes256_fips_vector :
    aesEncBlock
      (keySchedule ((List.range 32)))
      [0x00, 0x11, 0x22, 0x33, 0x44, 0x55, 0x66, 0x77,
       0x88, 0x99, 0xaa, 0xbb, 0xcc, 0xdd, 0xee, 0xff] =
    [0x8e, 0xa2, 0xb7, 0xca, 0x51, 0x67, 0x45, 0xbf,
     0xea, 0xfc, 0x49, 0x90, 0x4b, 0x49, 0x60, 0x89] := by decide

/-- The fixed 32-byte key of `aes_utils.py` (`"12345678901234567890123456789012"`). -/
def aesKeyBytes : List Nat := "12345678901234567890123456789012".toList.map Char.toNat

/-- The fixed 12-byte IV of `aes_utils.py` (`"123456789012"`). -/
def aesIvBytes : List Nat := "123456789012".toList.map Char.toNat

def aesRoundKeys : List (List Nat) := keySchedule aesKeyBytes

/-- Big-endian 32-bit encoding. -/
def be32 (n : Nat) : List Nat :=
  [n / 16777216 % 256, n / 65536 % 256, n / 256 % 256, n % 256]

/-- GCM counter block for message block `i` (96-bit IV: counter starts at 2). -/
def ctrBlock (i : Nat) : List Nat := aesIvBytes ++ be32 (i + 2)

/-- Byte `j` of the GCM keystream. -/
def ksByte (j : Nat) : Nat :=
  (aesEncBlock aesRoundKeys (ctrBlock (j / 16))).getD (j % 16) 0 % 256

theorem ksByte_lt (j : Nat) : ksByte j < 256 := Nat.mod_lt _ (by omega)

/-- XOR a byte list against the keystream starting at byte offset `i`. -/
def ctrXor : Nat → List Nat → List Nat
  | _, [] => []
  | i, b :: bs => (b ^^^ ksByte i) :: ctrXor (i + 1) bs

theorem ctrXor_length (i : Nat) (bs : List Nat) : (ctrXor i bs).length = bs.length := by
  induction bs generalizing i with
  | nil => rfl
  | cons b bs ih => simp [ctrXor, ih]

theorem ctrXor_ctrXor (i : Nat) (bs : List Nat) : ctrXor i (ctrXor i bs) = bs := by
  induction bs generalizing i with
  | nil => rfl
  | cons b bs ih =>
      simp [ctrXor, ih, Nat.xor_assoc]

theorem ctrXor_lt (i : Nat) (bs : List Nat) (hb : ∀ b ∈ bs, b < 256) :
    ∀ b ∈ ctrXor i bs, b < 256 := by
  induction bs generalizing i with
  | nil => simp [ctrXor]
  | cons b bs ih =>
      intro x hx
      simp only [ctrXor, List.mem_cons] at hx
      rcases hx with h | h
      · subst h
        exact Nat.xor_lt_two_pow (n := 8) (hb b (by simp)) (ksByte_lt i)
      · exact ih (i + 1) (fun y hy => hb y (by simp [hy])) x h

/-- `encrypt_AES_256` from `aes_utils.py`: GCM-encrypt under the fixed key
and IV, discard the authentication tag, and base64-encode the ciphertext
alone. -/
def encrypt_AES_256 (msg : List Nat) : List Char := b64encode (ctrXor 0 msg)

/-- `decrypt_AES_256` from `aes_utils.py`: base64-decode and XOR with the
same keystream; `cipher.decrypt` performs no tag verification, so the only
failure mode is the base64 transport decoding. -/
def decrypt_AES_256 (s : List Char) : Option (List Nat) :=
  (b64decode s).map (ctrXor 0)

set_option maxRecDepth 100000 in
set_option maxHeartbeats 1000000 in
/-- Validation of the embedded cipher chain against the observed behaviour
of `encrypt_AES_256(b"Hi")` under the hardcoded key and IV. -/
theorem encrypt_AES_256_Hi : encrypt_AES_256 [72, 105] = "yJs=".toList := by decide

/-! ### MD5 (`hashlib.md5`, used by `md5_utils.py`)

Embedded concretely: padding, 64-step compression with the standard sine
constant table, little-endian digest, lowercase hex rendering.  Validated
against known digests below.  All 32-bit words are `Nat` reduced modulo
`2 ^ 32`. -/

def md5K : List Nat :=
  [3614090360, 3905402710, 606105819, 3250441966, 4118548399, 1200080426, 2821735955, 4249261313,
   1770035416, 2336552879, 4294925233, 2304563134, 1804603682, 4254626195, 2792965006, 1236535329,
   4129170786, 3225465664, 643717713, 3921069994, 3593408605, 38016083, 3634488961, 3889429448,
   568446438, 3275163606, 4107603335, 1163531501, 2850285829, 4243563512, 1735328473, 2368359562,
   4294588738, 2272392833, 1839030562, 4259657740, 2763975236, 1272893353, 4139469664, 3200236656,
   681279174, 3936430074, 3572445317, 76029189, 3654602809, 3873151461, 530742520, 3299628645,
   4096336452, 1126891415, 2878612391, 4237533241, 1700485571, 2399980690, 4293915773, 2240044497,
   1873313359, 4264355552, 2734768916, 1309151649, 4149444226, 3174756917, 718787259, 3951481745]

def md5S : List Nat :=
  [7, 12, 17, 22, 7, 12, 17, 22, 7, 12, 17, 22, 7, 12, 17, 22,
   5, 9, 14, 20, 5, 9, 14, 20, 5, 9, 14, 20, 5, 9, 14, 20,
   4, 11, 16, 23, 4, 11, 16, 23, 4, 11, 16, 23, 4, 11, 16, 23,
   6, 10, 15, 21, 6, 10, 15, 21, 6, 10, 15, 21, 6, 10, 15, 21]

/-- Bitwise complement of a 32-bit word. -/
def bnot32 (x : Nat) : Nat := 4294967295 - x % 4294967296

/-- Left rotation of a 32-bit word. -/
def rotl32 (x s : Nat) : Nat := x * 2 ^ s % 4294967296 + x % 4294967296 / 2 ^ (32 - s)

def md5F (i b c d : Nat) : Nat :=
  if i < 16 then b &&& c ||| bnot32 b &&& d
  else if i < 32 then d &&& b ||| bnot32 d &&& c
  else if i < 48 then b ^^^ c ^^^ d
  else c ^^^ (b ||| bnot32 d)

def md5G (i : Nat) : Nat :=
  if i < 16 then i
  else if i < 32 then (5 * i + 1) % 16
  else if i < 48 then (3 * i + 5) % 16
  else 7 * i % 16

def md5Step (m : List Nat) (st : Nat × Nat × Nat × Nat) (i : Nat) : Nat × Nat × Nat × Nat :=
  match st with
  | (a, b, c, d) =>
      let x := (a + md5F i b c d + md5K.getD i 0 + m.getD (md5G i) 0) % 4294967296
      let nb := (b + rotl32 x (md5S.getD i 0)) % 4294967296
      (d, nb, b, c)

def md5Block (st : Nat × Nat × Nat × Nat) (m : List Nat) : Nat × Nat × Nat × Nat :=
  match st, (List.range 64).foldl (md5Step m) st with
  | (a0, b0, c0, d0), (a, b, c, d) =>
      ((a0 + a) % 4294967296, (b0 + b) % 4294967296,
       (c0 + c) % 4294967296, (d0 + d) % 4294967296)

/-- Little-endian byte rendering of a 32-bit word. -/
def le32 (x : Nat) : List Nat := [x % 256, x / 256 % 256, x / 65536 % 256, x / 16777216 % 256]

/-- MD5 padding: `0x80`, zeros to 56 mod 64, then the bit length as eight
little-endian bytes. -/
def md5Pad (msg : List Nat) : List Nat :=
  let len := msg.length
  let zeros := (119 - len % 64) % 64
  let bitLen := 8 * len % 18446744073709551616
  msg ++ [128] ++ List.replicate zeros 0 ++
    [bitLen % 256, bitLen / 256 % 256, bitLen / 65536 % 256, bitLen / 16777216 % 256,
     bitLen / 4294967296 % 256, bitLen / 1099511627776 % 256,
     bitLen / 281474976710656 % 256, bitLen / 72057594037927936 % 256]

/-- Split into 64-byte blocks (fuelled structural recursion). -/
def chunks64 : Nat → List Nat → List (List Nat)
  | 0, _ => []
  | _, [] => []
  | f + 1, bs => bs.take 64 :: chunks64 f (bs.drop 64)

/-- Little-endian 32-bit words of a block. -/
def leWords : List Nat → List Nat
  | b0 :: b1 :: b2 :: b3 :: rest =>
      (b0 + 256 * b1 + 65536 * b2 + 16777216 * b3) :: leWords rest
  | _ => []

def md5Bytes (msg : List Nat) : List Nat :=
  let padded := md5Pad msg
  match (chunks64 padded.length padded).foldl
      (fun st chunk => md5Block st (leWords chunk))
      (1732584193, 4023233417, 2562383102, 271733878) with
  | (a, b, c, d) => le32 a ++ le32 b ++ le32 c ++ le32 d

def hexDigitChar (n : Nat) : Char := "0123456789abcdef".toList.getD n '?'

def bytesToHex : List Nat → List Char
  | [] => []
  | b :: bs => hexDigitChar (b / 16) :: hexDigitChar (b % 16) :: bytesToHex bs

theorem bytesToHex_length (bs : List Nat) : (bytesToHex bs).length = 2 * bs.length := by
  induction bs with
  | nil => rfl
  | cons b bs ih => simp [bytesToHex, ih]; omega

theorem md5Bytes_length (msg : List Nat) : (md5Bytes msg).length = 16 := by
  unfold md5Bytes
  rcases (chunks64 (md5Pad msg).length (md5Pad msg)).foldl
      (fun st chunk => md5Block st (leWords chunk))
      (1732584193, 4023233417, 2562383102, 271733878) with ⟨a, b, c, d⟩
  simp [le32]

/-- UTF-8 encoding of one character (`str.encode("utf-8")`). -/
def utf8Bytes (c : Char) : List Nat :=
  let n := c.toNat
  if n < 128 then [n]
  else if n < 2048 then [192 + n / 64, 128 + n % 64]
  else if n < 65536 then [224 + n / 4096, 128 + n / 64 % 64, 128 + n % 64]
  else [240 + n / 262144, 128 + n / 4096 % 64, 128 + n / 64 % 64, 128 + n % 64]

def utf8Encode (s : List Char) : List Nat := (s.map utf8Bytes).flatten

/-- `md5_checksum` from `md5_utils.py`: lowercase hex MD5 of the UTF-8
encoding of the text. -/
def md5_checksum (text : List Char) : List Char := bytesToHex (md5Bytes (utf8Encode text))

/-- `verify_md5_checksum` from `md5_utils.py`. -/
def verify_md5_checksum (text original_checksum : List Char) : Bool :=
  md5_checksum text == original_checksum

theorem md5_checksum_length (text : List Char) : (md5_checksum text).length = 32 := by
  simp [md5_checksum, bytesToHex_length, md5Bytes_length]

set_option maxRecDepth 100000 in
/-- Known digest of the empty string. -/
theorem md5_empty : md5_checksum [] = "d41d8cd98f00b204e9800998ecf8427e".toList := by decide

set_option maxRecDepth 100000 in
/-- Known digest of `"abc"`. -/
theorem md5_abc :
    md5_checksum "abc".toList = "900150983cd24fb0d6963f7d28e17f72".toList := by decide

/-! ### `split_string` from `encode.py`

The Python loop accumulates characters into `out_str`, emitting a chunk
whenever the running count reaches `per_c = math.ceil(len(s) / count)`,
and appends the leftover chunk after the loop when non-empty. -/

def splitLoop (perC : Nat) : List Char → List Char → Nat → List (List Char)
  | [], outStr, cCout => if cCout ≠ 0 then [outStr] else []
  | ch :: rest, outStr, cCout =>
      let outStr := outStr ++ [ch]
      let cCout := cCout + 1
      if cCout = perC then outStr :: splitLoop perC rest [] 0
      else splitLoop perC rest outStr cCout

/-- `split_string(s_str, count=100)` from `encode.py` (for `count ≥ 1`;
`count = 0` raises `ZeroDivisionError` in Python and is out of scope). -/
def split_string (sStr : List Char) (count : Nat) : List (List Char) :=
  splitLoop (ceilDiv sStr.length count) sStr [] 0

/-- Concatenation of fragments, the join direction of the chunk codec
(`"".join` / string concatenation on the decode side). -/
def joinChunks (l : List (List Char)) : List Char := l.foldr (· ++ ·) []

theorem splitLoop_join (perC : Nat) (rest outStr : List Char) (cCout : Nat)
    (hinv : outStr.length = cCout) :
    joinChunks (splitLoop perC rest outStr cCout) = outStr ++ rest := by
  induction rest generalizing outStr cCout with
  | nil =>
      by_cases h : cCout = 0
      · have : outStr = [] := List.eq_nil_of_length_eq_zero (by omega)
        simp [splitLoop, h, this, joinChunks]
      · simp [splitLoop, h, joinChunks]
  | cons ch rest ih =>
      by_cases h : cCout + 1 = perC
      · simp only [splitLoop, if_pos h, joinChunks, List.foldr_cons]
        have := ih [] 0 rfl
        simp [joinChunks] at this
        simp [this]
      · simp only [splitLoop, if_neg h]
        rw [ih (outStr ++ [ch]) (cCout + 1) (by simp [hinv])]
        simp

theorem splitLoop_count (perC : Nat) (hp : 1 ≤ perC) (rest outStr : List Char)
    (cCout : Nat) (hinv : outStr.length = cCout) (hlt : cCout < perC) :
    (splitLoop perC rest outStr cCout).length = ceilDiv (cCout + rest.length) perC := by
  induction rest generalizing outStr cCout with
  | nil =>
      by_cases h : cCout = 0
      · simp only [splitLoop, h, ne_eq, not_true_eq_false, if_false, List.length_nil,
                   List.length, ceilDiv]
        rw [Nat.div_eq_of_lt (by omega)]
      · simp only [splitLoop, ne_eq, h, not_false_eq_true, if_true, List.length_cons,
                   List.length_nil, List.length, ceilDiv]
        have hh : cCout + 0 + perC - 1 = (cCout - 1) + 1 * perC := by omega
        rw [hh, Nat.add_mul_div_right _ _ (by omega : 0 < perC),
            Nat.div_eq_of_lt (by omega)]
  | cons ch rest ih =>
      by_cases h : cCout + 1 = perC
      · simp only [splitLoop, if_pos h, List.length_cons]
        rw [ih [] 0 rfl (by omega)]
        simp only [ceilDiv, List.length_cons]
        have e1 : cCout + (rest.length + 1) + perC - 1 = (rest.length + perC - 1) + perC := by
          omega
        have e2 : 0 + rest.length + perC - 1 = rest.length + perC - 1 := by omega
        rw [e1, e2, Nat.add_div_right _ (by omega : 0 < perC)]
      · simp only [splitLoop, if_neg h]
        rw [ih (outStr ++ [ch]) (cCout + 1) (by simp [hinv]) (by omega)]
        simp only [List.length_cons, ceilDiv]
        congr 2
        omega

theorem splitLoop_nonfinal_length (perC : Nat) (hp : 1 ≤ perC) (rest outStr : List Char)
    (cCout : Nat) (hinv : outStr.length = cCout) (hlt : cCout < perC) :
    ∀ x ∈ (splitLoop perC rest outStr cCout).dropLast, x.length = perC := by
  induction rest generalizing outStr cCout with
  | nil =>
      by_cases h : cCout = 0 <;> simp [splitLoop, h]
  | cons ch rest ih =>
      by_cases h : cCout + 1 = perC
      · simp only [splitLoop, if_pos h]
        intro x hx
        rcases Decidable.em (splitLoop perC rest [] 0 = []) with hnil | hnil
        · rw [hnil] at hx
          simp at hx
        · rw [List.dropLast_cons_of_ne_nil hnil] at hx
          rcases List.mem_cons.1 hx with hcase | hcase
          · subst hcase
            simp only [List.length_append, List.length_cons, List.length_nil, hinv]
            omega
          · exact ih [] 0 rfl (by omega) x hcase
      · simp only [splitLoop, if_neg h]
        exact ih (outStr ++ [ch]) (cCout + 1) (by simp [hinv]) (by omega)

/-! ### Checksum framing (`encode.py` `main`, `decode.py` `verify_md5_from_payload`)

The encoder frames the message as `md5_checksum(text) + text`; the decoder
splits the first 32 characters off and recomputes the digest over the rest. -/

/-- The framed payload built in `encode.py` (`TEXT_TO_ENCODE =
Original_Checksum + TEXT_TO_ENCODE1`). -/
def framePayload (message : List Char) : List Char := md5_checksum message ++ message

/-- `verify_md5_from_payload` from `decode.py`. -/
def verify_md5_from_payload (payload : List Char) : Bool × List Char :=
  if payload.length < 32 then (false, payload)
  else
    let checksum := payload.take 32
    let body := payload.drop 32
    (md5_checksum body == checksum, body)

/-! ### `parse_frames_spec` from `decode.py`

Python builds an unordered `set` of frame numbers from comma-separated
tokens (plain integers or direction-agnostic `a-b` ranges) and returns
`sorted(frames)`.  The set-then-sort pair is modelled by an
insertion-sorted duplicate-free accumulator, which yields the same final
list.  Python `int()` also accepts digit-grouping underscores; that
acceptance detail is not modelled and no repository input uses it. -/

def isPySpace (c : Char) : Bool :=
  c = ' ' || c = '\t' || c = '\n' || c = '\x0b' || c = '\x0c' || c = '\r'

/-- Python `str.strip()` (ASCII whitespace). -/
def strip (s : List Char) : List Char :=
  ((s.dropWhile isPySpace).reverse.dropWhile isPySpace).reverse

/-- Python `str.split(sep)` for a one-character separator. -/
def splitOnChar (sep : Char) : List Char → List (List Char)
  | [] => [[]]
  | c :: rest =>
      if c = sep then [] :: splitOnChar sep rest
      else
        match splitOnChar sep rest with
        | [] => [[c]]
        | part :: parts => (c :: part) :: parts

def digitsToNat : List Char → Option Nat
  | [] => none
  | ds =>
      if ds.all Char.isDigit then
        some (ds.foldl (fun acc c => 10 * acc + (c.toNat - 48)) 0)
      else none

/-- Python `int(str)`: optional surrounding whitespace, optional sign,
then decimal digits. -/
def parseIntPy (s : List Char) : Option Int :=
  match strip s with
  | '+' :: ds => (digitsToNat ds).map Int.ofNat
  | '-' :: ds => (digitsToNat ds).map (fun n => -(n : Int))
  | ds => (digitsToNat ds).map Int.ofNat

/-- Split at the first `-`, like Python `part.split("-", 1)`. -/
def splitFirstDash : List Char → List Char × List Char
  | [] => ([], [])
  | c :: rest =>
      if c = '-' then ([], rest)
      else
        match splitFirstDash rest with
        | (a, b) => (c :: a, b)

/-- The inclusive integer range `[lo, hi]` (Python `range(lo, hi + 1)`). -/
def intRange (lo hi : Int) : List Int :=
  (List.range (hi + 1 - lo).toNat).map (fun k => lo + (k : Int))

/-- Insert into a sorted duplicate-free list, modelling `set.add`. -/
def insertSorted (x : Int) : List Int → List Int
  | [] => [x]
  | y :: ys =>
      if x < y then x :: y :: ys
      else if x = y then y :: ys
      else y :: insertSorted x ys

def parseParts : List (List Char) → List Int → Option (List Int)
  | [], acc => some acc
  | part0 :: rest, acc =>
      let part := strip part0
      if part.isEmpty then parseParts rest acc
      else if part.contains '-' then
        match splitFirstDash part with
        | (as, bs) =>
            match parseIntPy as, parseIntPy bs with
            | some a, some b =>
                let rng := if a ≤ b then intRange a b else intRange b a
                parseParts rest (rng.foldl (fun l x => insertSorted x l) acc)
            | _, _ => none
      else
        match parseIntPy part with
        | some n => parseParts rest (insertSorted n acc)
        | none => none

/-- `parse_frames_spec` from `decode.py`: `none` models the `ValueError`
raised by `int()` on malformed tokens. -/
def parse_frames_spec (spec : List Char) : Option (List Int) :=
  parseParts (splitOnChar ',' (strip spec)) []

theorem mem_insertSorted (x b : Int) (l : List Int) (h : b ∈ insertSorted x l) :
    b = x ∨ b ∈ l := by
  induction l with
  | nil => simpa [insertSorted] using h
  | cons y ys ih =>
      simp only [insertSorted] at h
      by_cases h1 : x < y
      · rw [if_pos h1] at h
        simpa using h
      · rw [if_neg h1] at h
        by_cases h2 : x = y
        · rw [if_pos h2] at h
          simp [h]
        · rw [if_neg h2] at h
          rcases List.mem_cons.1 h with hb | hb
          · simp [hb]
          · rcases ih hb with hb2 | hb2
            · exact Or.inl hb2
            · exact Or.inr (List.mem_cons_of_mem _ hb2)

theorem insertSorted_sorted (x : Int) (l : List Int) (h : l.Sorted (· < ·)) :
    (insertSorted x l).Sorted (· < ·) := by
  induction l with
  | nil => simp [insertSorted]
  | cons y ys ih =>
      rw [List.sorted_cons] at h
      simp only [insertSorted]
      by_cases h1 : x < y
      · rw [if_pos h1, List.sorted_cons]
        refine ⟨?_, ?_⟩
        · intro b hb
          rcases List.mem_cons.1 hb with hb2 | hb2
          · omega
          · have := h.1 b hb2
            omega
        · rw [List.sorted_cons]
          exact h
      · rw [if_neg h1]
        by_cases h2 : x = y
        · rw [if_pos h2, List.sorted_cons]
          exact h
        · rw [if_neg h2, List.sorted_cons]
          refine ⟨?_, ih h.2⟩
          intro b hb
          rcases mem_insertSorted x b ys hb with hb2 | hb2
          · omega
          · exact h.1 b hb2

theorem foldl_insertSorted_sorted (l : List Int) (acc : List Int)
    (h : acc.Sorted (· < ·)) :
    (l.foldl (fun a x => insertSorted x a) acc).Sorted (· < ·) := by
  induction l generalizing acc with
  | nil => exact h
  | cons x xs ih => exact ih _ (insertSorted_sorted x acc h)

theorem parseParts_sorted (parts : List (List Char)) (acc out : List Int)
    (hacc : acc.Sorted (· < ·)) (hout : parseParts parts acc = some out) :
    out.Sorted (· < ·) := by
  induction parts generalizing acc with
  | nil =>
      simp only [parseParts, Option.some.injEq] at hout
      exact hout ▸ hacc
  | cons part0 rest ih =>
      simp only [parseParts] at hout
      by_cases he : (strip part0).isEmpty
      · rw [if_pos he] at hout
        exact ih acc hacc hout
      · rw [if_neg he] at hout
        by_cases hd : (strip part0).contains '-'
        · rw [if_pos hd] at hout
          rcases hsp : splitFirstDash (strip part0) with ⟨as, bs⟩
          rw [hsp] at hout
          rcases ha : parseIntPy as with _ | a <;> rw [ha] at hout
          · cases hout
          · rcases hb : parseIntPy bs with _ | b <;> rw [hb] at hout
            · cases hout
            · exact ih _ (foldl_insertSorted_sorted _ acc hacc) hout
        · rw [if_neg hd] at hout
          rcases hn : parseIntPy (strip part0) with _ | n <;> rw [hn] at hout
          · cases hout
          · exact ih _ (insertSorted_sorted n acc hacc) hout

/-- Any successfully parsed frame spec is strictly sorted ascending (hence
deduplicated). -/
theorem parse_frames_spec_sorted (spec : List Char) (out : List Int)
    (h : parse_frames_spec spec = some out) : out.Sorted (· < ·) :=
  parseParts_sorted _ [] out (by simp) h

/-! ### Still-image side-channel decode (`decode.py` lines 117-186)

`derive_frames_from_still_image` reveals a hidden string from the image
(external `lsb.reveal`, abstracted here into the `hidden` argument),
decrypts it through the flexible wrapper, decodes the bytes as UTF-8 with
replacement, strips whitespace, and parses the text first with
`ast.literal_eval` (returning the literal list verbatim when it is a list
of ints) and otherwise through `parse_frames_spec`. -/

/-- Python `base64.b64decode` on a `bytes` value: no ASCII-encoding step,
non-alphabet bytes are discarded. -/
def b64decodeBytes (bs : List Nat) : Option (List Nat) :=
  b64decodeCore ((bs.map Char.ofNat).filter isKeepChar)

/-- `decrypt_AES_256` applied to a raw `bytes` argument (the second path
of the flexible wrapper): `base64.b64decode` accepts bytes directly. -/
def decrypt_AES_256_bytes (bs : List Nat) : Option (List Nat) :=
  (b64decodeBytes bs).map (ctrXor 0)

/-- `_decrypt_with_aes_utils_flex` from `decode.py` on a string input: try
`decrypt_AES_256` directly; on failure, base64-decode the string to bytes
and pass those to `decrypt_AES_256` once.  The output is bytes, so the
`isinstance(out, str)` re-encoding branches never fire. -/
def decrypt_with_aes_utils_flex (s : List Char) : Option (List Nat) :=
  match decrypt_AES_256 s with
  | some out => some out
  | none =>
      match b64decode s with
      | some cipherBytes => decrypt_AES_256_bytes cipherBytes
      | none => none

def isCont (b : Nat) : Bool := 128 ≤ b && b < 192

def replChar : Char := Char.ofNat 65533

/-- Valid second byte of a three-byte UTF-8 sequence (excludes overlong
encodings and surrogates, which Python replaces). -/
def cont3Ok (b b2 : Nat) : Bool :=
  if b = 224 then 160 ≤ b2 && b2 < 192
  else if b = 237 then 128 ≤ b2 && b2 < 160
  else isCont b2

/-- Valid second byte of a four-byte UTF-8 sequence. -/
def cont4Ok (b b2 : Nat) : Bool :=
  if b = 240 then 144 ≤ b2 && b2 < 192
  else if b = 244 then 128 ≤ b2 && b2 < 144
  else isCont b2

/-- Python `bytes.decode("utf-8", errors="replace")`, fuelled structural
recursion.  The number of replacement characters emitted for a truncated
or invalid multi-byte sequence is approximated (one per leading byte);
every valid sequence decodes exactly, and only valid ASCII is exercised by
the repository paths modelled here. -/
def utf8DecRepl : Nat → List Nat → List Char
  | 0, _ => []
  | _, [] => []
  | f + 1, b :: rest =>
      if b < 128 then Char.ofNat b :: utf8DecRepl f rest
      else if 194 ≤ b && b < 224 then
        match rest with
        | b2 :: r2 =>
            if isCont b2 then
              Char.ofNat ((b - 192) * 64 + (b2 - 128)) :: utf8DecRepl f r2
            else replChar :: utf8DecRepl f rest
        | [] => [replChar]
      else if 224 ≤ b && b < 240 then
        match rest with
        | b2 :: b3 :: r3 =>
            if cont3Ok b b2 && isCont b3 then
              Char.ofNat ((b - 224) * 4096 + (b2 - 128) * 64 + (b3 - 128)) :: utf8DecRepl f r3
            else replChar :: utf8DecRepl f rest
        | _ => [replChar]
      else if 240 ≤ b && b < 245 then
        match rest with
        | b2 :: b3 :: b4 :: r4 =>
            if cont4Ok b b2 && isCont b3 && isCont b4 then
              Char.ofNat ((b - 240) * 262144 + (b2 - 128) * 4096 +
                          (b3 - 128) * 64 + (b4 - 128)) :: utf8DecRepl f r4
            else replChar :: utf8DecRepl f rest
        | _ => [replChar]
      else replChar :: utf8DecRepl f rest

def utf8DecodeReplace (bs : List Nat) : List Char := utf8DecRepl bs.length bs

def skipWs (s : List Char) : List Char := s.dropWhile isPySpace

/-- Leading decimal digit run. -/
def takeDigits : List Char → Option (Nat × List Char)
  | s =>
      let ds := s.takeWhile Char.isDigit
      if ds.isEmpty then none
      else some (ds.foldl (fun acc c => 10 * acc + (c.toNat - 48)) 0, s.dropWhile Char.isDigit)

/-- One integer literal (optional sign). -/
def parseLitInt (s : List Char) : Option (Int × List Char) :=
  match skipWs s with
  | '-' :: r => (takeDigits (skipWs r)).map (fun p => (-(p.1 : Int), p.2))
  | '+' :: r => (takeDigits (skipWs r)).map (fun p => ((p.1 : Int), p.2))
  | t => (takeDigits t).map (fun p => ((p.1 : Int), p.2))

def parseItemsAux : Nat → List Char → List Int → Option (List Int)
  | 0, _, _ => none
  | f + 1, s, acc =>
      match parseLitInt s with
      | none => none
      | some (v, r) =>
          match skipWs r with
          | ']' :: tail => if (skipWs tail).isEmpty then some (acc ++ [v]) else none
          | ',' :: tail =>
              match skipWs tail with
              | ']' :: tail2 => if (skipWs tail2).isEmpty then some (acc ++ [v]) else none
              | t2 => parseItemsAux f t2 (acc ++ [v])
          | _ => none

/-- `ast.literal_eval(recovered)` restricted to the accepted shape: a
literal list whose elements are all ints (decimal, optionally signed;
other literal forms fall through to the frame-spec parser in the code and
to `none` here). -/
def parseLiteralIntList (s : List Char) : Option (List Int) :=
  match skipWs s with
  | '[' :: r =>
      match skipWs r with
      | ']' :: tail => if (skipWs tail).isEmpty then some [] else none
      | r2 => parseItemsAux (r2.length + 1) r2 []
  | _ => none

/-- The parsing stage of `derive_frames_from_still_image`: literal-eval
first, returning the list verbatim; `parse_frames_spec` as fallback. -/
def parseRecoveredFrames (recovered : List Char) : Option (List Int) :=
  match parseLiteralIntList recovered with
  | some val => some val
  | none => parse_frames_spec recovered

/-- `derive_frames_from_still_image` from the revealed hidden string
onward (`none` models the raised `RuntimeError`s). -/
def derive_frames_from_hidden (hidden : List Char) : Option (List Int) :=
  match decrypt_with_aes_utils_flex hidden with
  | none => none
  | some decryptedBytes =>
      parseRecoveredFrames (strip (utf8DecodeReplace decryptedBytes))

/-! ### Corruption helper -/

/-- Flip bit `k` of the character at index `i` (a single-bit corruption of
the envelope text). -/
def flipCharAt (s : List Char) (i k : Nat) : List Char :=
  s.take i ++ [Char.ofNat ((s.getD i ' ').toNat ^^^ 2 ^ k)] ++ s.drop (i + 1)

/-! ### Claims -/

set_option maxRecDepth 100000 in
set_option maxHeartbeats 1000000 in
/-- C1, counterexample: flipping bit 5 of the first envelope character of
`encrypt_AES_256(b"Hi")` (a case flip inside the base64 alphabet) is a
genuine corruption, yet `decrypt_AES_256` raises no error at all and
returns bytes different from the plaintext.  The claim that every
bit-flip of the envelope raises `AuthenticationError` or
`MalformedEnvelopeError` is therefore false. -/
theorem C1_counterexample :
    (flipCharAt (encrypt_AES_256 [72, 105]) 0 5 ≠ encrypt_AES_256 [72, 105]) ∧
    (decrypt_AES_256 (flipCharAt (encrypt_AES_256 [72, 105]) 0 5)).isSome = true ∧
    decrypt_AES_256 (flipCharAt (encrypt_AES_256 [72, 105]) 0 5) ≠ some [72, 105] := by
  decide

/-- C1, amended: `decrypt_AES_256` performs no authentication whatsoever —
whenever the base64 transport decoding of the (possibly corrupted)
envelope succeeds, decryption succeeds and returns the keystream-XOR of
the decoded bytes; the only error the function can raise is the transport
decoding failure. -/
theorem C1_amended (s : List Char) (d : List Nat) (h : b64decode s = some d) :
    decrypt_AES_256 s = some (ctrXor 0 d) := by
  simp [decrypt_AES_256, h]

set_option maxRecDepth 100000 in
set_option maxHeartbeats 1000000 in
/-- Witness for C1_amended at the concrete envelope of `b"Hi"`. -/
theorem C1_amended_witness :
    b64decode "yJs=".toList = some [200, 155] ∧
    decrypt_AES_256 "yJs=".toList = some (ctrXor 0 [200, 155]) :=
  ⟨by decide, C1_amended _ _ (by decide)⟩

/-- C2: decrypting an envelope produced by `encrypt_AES_256` on a byte
sequence `p` yields exactly `p` (the GCM keystream XOR is an involution
and base64 decoding inverts encoding). -/
theorem C2_cipher_roundtrip (p : List Nat) (h : ∀ b ∈ p, b < 256) :
    decrypt_AES_256 (encrypt_AES_256 p) = some p := by
  unfold encrypt_AES_256 decrypt_AES_256
  rw [b64decode_encode _ (ctrXor_lt 0 p h)]
  simp [ctrXor_ctrXor]

set_option maxRecDepth 100000 in
set_option maxHeartbeats 1000000 in
/-- Witness for C2_cipher_roundtrip at `b"Hi"`. -/
theorem C2_witness :
    (∀ b ∈ [72, 105], b < 256) ∧
    decrypt_AES_256 (encrypt_AES_256 [72, 105]) = some [72, 105] :=
  ⟨by decide, C2_cipher_roundtrip [72, 105] (by decide)⟩

/-- C3: `decrypt_AES_256` on the base64 encoding of any byte sequence `c`
succeeds without error — the tag discarded by encrypt is never checked —
and returns a byte sequence of the same length as `c`. -/
theorem C3_no_authentication (c : List Nat) (h : ∀ b ∈ c, b < 256) :
    decrypt_AES_256 (b64encode c) = some (ctrXor 0 c) ∧
    (ctrXor 0 c).length = c.length := by
  refine ⟨?_, ctrXor_length 0 c⟩
  unfold decrypt_AES_256
  rw [b64decode_encode _ h]
  rfl

set_option maxRecDepth 100000 in
set_option maxHeartbeats 1000000 in
/-- Witness for C3_no_authentication at an arbitrary three-byte input. -/
theorem C3_witness :
    (∀ b ∈ [1, 2, 3], b < 256) ∧
    (decrypt_AES_256 (b64encode [1, 2, 3]) = some (ctrXor 0 [1, 2, 3]) ∧
     (ctrXor 0 ([1, 2, 3] : List Nat)).length = ([1, 2, 3] : List Nat).length) :=
  ⟨by decide, C3_no_authentication [1, 2, 3] (by decide)⟩

/-- C4, counterexample: the envelope of `b"Hi"` is 4 characters long,
whereas the base64 encoding of `ciphertext ++ tag` with a 16-byte GCM tag
would be 24 characters — the envelope cannot be the encoding of
`ciphertext ++ tag` for any tag. -/
theorem C4_counterexample :
    ¬ ∃ tag : List Nat, tag.length = 16 ∧
        encrypt_AES_256 [72, 105] = b64encode (ctrXor 0 [72, 105] ++ tag) := by
  rintro ⟨tag, htag, heq⟩
  have h1 := congrArg List.length heq
  rw [encrypt_AES_256, b64encode_length, b64encode_length, List.length_append,
      ctrXor_length] at h1
  simp [ceilDiv, htag] at h1

/-- C4, amended: the envelope returned by `encrypt_AES_256(p)` is the
base64 text encoding of the GCM ciphertext alone — decoding the envelope
recovers exactly the keystream-XOR of `p`, with no authentication tag
appended (the tag is discarded by `encrypt_and_digest`). -/
theorem C4_amended (p : List Nat) (h : ∀ b ∈ p, b < 256) :
    b64decode (encrypt_AES_256 p) = some (ctrXor 0 p) := by
  unfold encrypt_AES_256
  exact b64decode_encode _ (ctrXor_lt 0 p h)

set_option maxRecDepth 100000 in
set_option maxHeartbeats 1000000 in
/-- Witness for C4_amended at `b"Hi"`. -/
theorem C4_amended_witness :
    (∀ b ∈ [72, 105], b < 256) ∧
    b64decode (encrypt_AES_256 [72, 105]) = some (ctrXor 0 [72, 105]) :=
  ⟨by decide, C4_amended [72, 105] (by decide)⟩

/-- C5: concatenating the fragments of `split_string(s, n)` in order
yields exactly `s` for every string and every `n ≥ 1`, and every
non-final fragment has length `ceil(len(s) / n)` (fragments are contiguous
slices in order). -/
theorem C5_split_join (s : List Char) (n : Nat) (hn : 1 ≤ n) :
    joinChunks (split_string s n) = s ∧
    ∀ x ∈ (split_string s n).dropLast, x.length = ceilDiv s.length n := by
  constructor
  · simpa using splitLoop_join (ceilDiv s.length n) s [] 0 rfl
  · rcases hs : s with _ | ⟨c, cs⟩
    · simp [split_string, splitLoop, ceilDiv]
    · have hp : 1 ≤ ceilDiv s.length n := by
        apply ceilDiv_pos _ _ _ hn
        rw [hs]
        simp
      rw [← hs]
      exact splitLoop_nonfinal_length _ (hs ▸ hp) s [] 0 rfl (hs ▸ hp)

/-- Witness for C5_split_join at `s = "abcde"`, `n = 2`. -/
theorem C5_witness :
    (1 ≤ 2) ∧
    (joinChunks (split_string "abcde".toList 2) = "abcde".toList ∧
     ∀ x ∈ (split_string "abcde".toList 2).dropLast,
       x.length = ceilDiv ("abcde".toList).length 2) :=
  ⟨by decide, C5_split_join "abcde".toList 2 (by decide)⟩

/-- C6, counterexample: for `s = "abcde"` (length 5) and `n = 4`, the
chunk size is `ceil(5/4) = 2` and `split_string` produces only 3
fragments, not 4 — `len(split(s, n)) == n` fails even though
`1 ≤ n ≤ len(s)`. -/
theorem C6_counterexample :
    1 ≤ 4 ∧ 4 ≤ ("abcde".toList).length ∧
    (split_string "abcde".toList 4).length ≠ 4 := by decide

/-- C6, amended: for `1 ≤ n ≤ len(s)`, `split_string(s, n)` produces
`ceil(len(s) / ceil(len(s) / n))` fragments — at least one and at most
`n`, but not always exactly `n`. -/
theorem C6_amended (s : List Char) (n : Nat) (h1 : 1 ≤ n) (h2 : n ≤ s.length) :
    (split_string s n).length = ceilDiv s.length (ceilDiv s.length n) ∧
    1 ≤ (split_string s n).length ∧ (split_string s n).length ≤ n := by
  have hp : 1 ≤ ceilDiv s.length n := ceilDiv_pos _ _ (by omega) h1
  have hcount : (split_string s n).length = ceilDiv s.length (ceilDiv s.length n) := by
    unfold split_string
    rw [splitLoop_count _ hp s [] 0 rfl hp, Nat.zero_add]
  refine ⟨hcount, ?_, ?_⟩
  · rw [hcount]
    exact ceilDiv_pos _ _ (by omega) hp
  · rw [hcount]
    exact ceilDiv_le_of_le_mul _ _ _ hp (ceilDiv_le_mul s.length n h1)

/-- Witness for C6_amended at `s = "abcde"`, `n = 4`. -/
theorem C6_amended_witness :
    (1 ≤ 4) ∧ (4 ≤ ("abcde".toList).length) ∧
    ((split_string "abcde".toList 4).length =
       ceilDiv ("abcde".toList).length (ceilDiv ("abcde".toList).length 4) ∧
     1 ≤ (split_string "abcde".toList 4).length ∧
     (split_string "abcde".toList 4).length ≤ 4) :=
  ⟨by decide, by decide, C6_amended "abcde".toList 4 (by decide) (by decide)⟩

/-- C7: deframing recovers the message verified — prefixing the MD5
digest to a message and running `verify_md5_from_payload` returns
`(true, message)` for every message. -/
theorem C7_framing_roundtrip (m : List Char) :
    verify_md5_from_payload (framePayload m) = (true, m) := by
  unfold framePayload verify_md5_from_payload
  have hl := md5_checksum_length m
  rw [if_neg (by simp [List.length_append, hl])]
  rw [show (32 : Nat) = (md5_checksum m).length from hl.symm,
      List.take_left, List.drop_left]
  simp

/-- C8: `verify_md5_from_payload` returns `(false, payload)` unchanged for
payloads shorter than 32 characters, and otherwise returns the body
`payload[32:]` together with the result of checking `payload[:32]` against
the recomputed digest — the body is handed back in both branches, so a
checksum mismatch is non-fatal. -/
theorem C8_deframe_spec (payload : List Char) :
    verify_md5_from_payload payload =
      if payload.length < 32 then (false, payload)
      else (verify_md5_checksum (payload.drop 32) (payload.take 32), payload.drop 32) := by
  rfl

set_option maxRecDepth 100000 in
/-- C9: frame-spec parsing — the three concrete examples from the spec,
including the direction-agnostic range `5-3`, and sortedness (hence
dedup) of every successfully parsed result. -/
theorem C9_parse_frames_spec :
    parse_frames_spec "1,4,6-9,12".toList = some [1, 4, 6, 7, 8, 9, 12] ∧
    parse_frames_spec "1-3".toList = some [1, 2, 3] ∧
    parse_frames_spec "5-3".toList = some [3, 4, 5] ∧
    ∀ spec out, parse_frames_spec spec = some out → out.Sorted (· < ·) :=
  ⟨by decide, by decide, by decide, parse_frames_spec_sorted⟩

set_option maxRecDepth 100000 in
/-- Witness for the universally quantified part of C9_parse_frames_spec. -/
theorem C9_witness :
    parse_frames_spec "2,1".toList = some [1, 2] ∧
    List.Sorted (· < ·) ([1, 2] : List Int) :=
  ⟨by decide, C9_parse_frames_spec.2.2.2 "2,1".toList [1, 2] (by decide)⟩

set_option maxRecDepth 100000 in
set_option maxHeartbeats 1000000 in
/-- C10, counterexample: a still-image payload produced by the encoder for
`FRAMES = [3, 1, 3]` (hidden text `str([3, 1, 3])`, encrypted with
`encrypt_AES_256`) decodes on the decode side to the list `[3, 1, 3]`
verbatim — with a duplicate and out of order — because the literal-eval
path of `derive_frames_from_still_image` returns the parsed list without
sorting or deduplication. -/
theorem C10_counterexample :
    derive_frames_from_hidden (encrypt_AES_256 (utf8Encode "[3, 1, 3]".toList)) =
      some [3, 1, 3] ∧
    ¬ List.Sorted (· < ·) ([3, 1, 3] : List Int) := by decide

/-- C10, amended: a frame-index list recovered on the decode side is
either the literal-eval result returned verbatim (possibly unsorted, with
duplicates) or, when only the frame-spec fallback applies, a list that is
sorted ascending and deduplicated. -/
theorem C10_amended (recovered : List Char) (out : List Int)
    (h : parseRecoveredFrames recovered = some out) :
    parseLiteralIntList recovered = some out ∨ out.Sorted (· < ·) := by
  unfold parseRecoveredFrames at h
  rcases hl : parseLiteralIntList recovered with _ | val
  · rw [hl] at h
    exact Or.inr (parse_frames_spec_sorted _ _ h)
  · rw [hl] at h
    cases h
    exact Or.inl rfl

set_option maxRecDepth 100000 in
/-- Witness for C10_amended on a literal-path input. -/
theorem C10_amended_witness :
    parseRecoveredFrames "[3, 1]".toList = some [3, 1] ∧
    (parseLiteralIntList "[3, 1]".toList = some [3, 1] ∨
     List.Sorted (· < ·) ([3, 1] : List Int)) :=
  ⟨by decide, C10_amended _ _ (by decide)⟩

end VideoStego
